import Mathlib

/-!
Verification of the core algorithms of the Daily Typing Challenge app
(`src/app.js`): the hash-seeded Mulberry32 PRNG, the Fisher-Yates deck
shuffler, the daily passage scheduler, the normal-model percentile
computation, and the per-language record store.

Modelling conventions:
* 32-bit JavaScript integer operations (`Math.imul`, bitwise XOR/OR and
  unsigned shifts) are modelled on `Nat` reduced modulo `2^32`; this matches
  the bit patterns the JS code observes (signed and unsigned views share the
  same bits, and every consumer of the running hash reduces it modulo
  `2^32`).
* JS floating-point numbers are modelled by real numbers where the
  computation is transcendental (`Math.exp`, `Math.sqrt`), and by `ℚ`/`Nat`
  where only ordering and field access matter (the record store).
* `Math.floor(prng() * (i + 1))` is modelled exactly as
  `u * (i + 1) / 2^32` in `Nat` arithmetic, where `u < 2^32` is the raw
  32-bit word that the JS generator divides by `4294967296`.
* `localStorage` is modelled as a partial map from keys to raw stored
  values, and `JSON.parse` as a fallible step (`Except`): it yields `null`
  for a missing key and throws a `SyntaxError` on malformed text.
-/

-- ## Definitions

/-- `Math.imul a b` on the `Nat`-mod-`2^32` view of 32-bit values
(`src/app.js`, used in `createSeededRandom`). -/
def imul (a b : Nat) : Nat := (a * b) % 2 ^ 32

/-- The seed-hashing loop of `createSeededRandom` (`src/app.js` lines
903-906): start from `0xdeadbeef` and fold every character code of the seed
string with XOR followed by `Math.imul` with `2654435761`.  `charCodeAt` is
modelled by `Char.toNat`, which agrees with UTF-16 code units on the ASCII
seed strings the app builds. -/
def hashSeed (seedStr : String) : Nat :=
  seedStr.data.foldl (fun h c => imul (Nat.xor h c.toNat) 2654435761) 0xdeadbeef

/-- One step of the Mulberry32 generator returned by `createSeededRandom`
(`src/app.js` lines 908-913): advance the state `h` by `0x6D2B79F5`, mix,
and return the new state together with the raw 32-bit output `u`; the JS
closure returns `u / 4294967296`. -/
def mulberryStep (h : Nat) : Nat × Nat :=
  let h2 := (h + 0x6D2B79F5) % 2 ^ 32
  let t1 := imul (Nat.xor h2 (h2 / 2 ^ 15)) (Nat.lor 1 h2)
  let t2 := Nat.xor ((t1 + imul (Nat.xor t1 (t1 / 2 ^ 7)) (Nat.lor 61 t1)) % 2 ^ 32) t1
  (h2, Nat.xor t2 (t2 / 2 ^ 14))

/-- The destructuring swap `[a[i], a[j]] = [a[j], a[i]]` used by the
Fisher-Yates loop of `getShuffledIndices` (`src/app.js` line 488). -/
def swapAt (l : List Nat) (i j : Nat) : List Nat :=
  (l.set i (l.getD j 0)).set j (l.getD i 0)

/-- One iteration of the Fisher-Yates loop of `getShuffledIndices`
(`src/app.js` lines 486-489): draw one PRNG value `u / 2^32`, set
`j = Math.floor(value * (i + 1))` (exactly `u * (i + 1) / 2^32`), swap. -/
def fyStep (p : List Nat × Nat) (i : Nat) : List Nat × Nat :=
  let s := mulberryStep p.2
  let j := s.2 * (i + 1) / 2 ^ 32
  (swapAt p.1 i j, s.1)

/-- `getShuffledIndices` (`src/app.js` lines 480-491), instrumented with the
PRNG state: build `[0, …, length-1]`, then run the Fisher-Yates loop for
`i = length-1, …, 1`, threading the generator state.  The second component
is the generator state after the loop; it equals `hashSeed seed` exactly
when the generator was never stepped. -/
def getShuffledIndicesS (length : Nat) (seed : String) : List Nat × Nat :=
  ((List.range' 1 (length - 1)).reverse).foldl fyStep (List.range length, hashSeed seed)

/-- The index permutation returned by `getShuffledIndices` in `src/app.js`. -/
def getShuffledIndices (length : Nat) (seed : String) : List Nat :=
  (getShuffledIndicesS length seed).1

/-- The placeholder passage used when the quote pool is empty
(`src/app.js` line 445). -/
def noQuotes : String := "No quotes available."

/-- `getSentenceAtGlobalIndex` (`src/app.js` lines 463-478): split the
global stream position into a deck number and a position inside the deck,
reshuffle the pool indices with the seed `<language>_deck_<deckIndex>`, and
return the passage at the shuffled position.  List indexing is modelled
with `getD` (all indices are in bounds whenever the pool is non-empty). -/
def getSentenceAtGlobalIndex (allQuotes : List String) (language : String)
    (globalIndex : Nat) : String :=
  let total := allQuotes.length
  let deckIndex := globalIndex / total
  let localIndex := globalIndex % total
  let seed := language ++ "_deck_" ++ toString deckIndex
  let shuffledIndices := getShuffledIndices total seed
  allQuotes.getD (shuffledIndices.getD localIndex 0) ""

/-- `selectDailyQuotes` (`src/app.js` lines 443-460): a missing or empty
pool yields three identical placeholder passages; otherwise the three
passages at global stream positions `daysPassed * 3 + 0, 1, 2` are taken. -/
def selectDailyQuotes (allQuotes : Option (List String)) (language : String)
    (daysPassed : Nat) : List String :=
  match allQuotes with
  | none => [noQuotes, noQuotes, noQuotes]
  | some qs =>
    if qs.length = 0 then [noQuotes, noQuotes, noQuotes]
    else (List.range 3).map (fun i => getSentenceAtGlobalIndex qs language (daysPassed * 3 + i))

/-- One stored record (`src/app.js` lines 691-697), generic over the
numeric type used for the float fields. -/
structure PlayRecord (α : Type) where
  playIndex : Nat
  percentile : α
  wpm : α
  duration : α
  timestamp : Nat

/-- The comparator `(a, b) => a.percentile - b.percentile` of
`src/app.js` line 704, as the ordering it sorts by. -/
def recLE {α : Type} [LinearOrder α] (a b : PlayRecord α) : Prop :=
  a.percentile ≤ b.percentile

instance {α : Type} [LinearOrder α] : DecidableRel (recLE (α := α)) :=
  fun a b => inferInstanceAs (Decidable (a.percentile ≤ b.percentile))

instance {α : Type} [LinearOrder α] : IsTotal (PlayRecord α) recLE :=
  ⟨fun a b => le_total a.percentile b.percentile⟩

instance {α : Type} [LinearOrder α] : IsTrans (PlayRecord α) recLE :=
  ⟨fun _ _ _ h1 h2 => le_trans h1 h2⟩

/-- The per-language store `{ playCount, records }` (`src/app.js` line 685). -/
structure RecordStore (α : Type) where
  playCount : Nat
  records : List (PlayRecord α)

/-- The default store `{ playCount: 0, records: [] }` (`src/app.js` line 685). -/
def emptyStore {α : Type} : RecordStore α := ⟨0, []⟩

/-- The store update of `saveRecord` (`src/app.js` lines 686-711) given the
already-computed numbers: increment `playCount`, append the new record,
sort ascending by `percentile`, keep the first 5 if more than 5.  The JS
`Array.prototype.sort` (stable) is modelled by the stable `insertionSort`. -/
def saveRecord {α : Type} [LinearOrder α] (data : RecordStore α)
    (finalTime percentileNum wpmVal : α) (timestamp : Nat) : RecordStore α :=
  let playCount := data.playCount + 1
  let newRecord : PlayRecord α := ⟨playCount, percentileNum, wpmVal, finalTime, timestamp⟩
  let pushed := data.records ++ [newRecord]
  let sorted := pushed.insertionSort recLE
  let kept := if 5 < sorted.length then sorted.take 5 else sorted
  ⟨playCount, kept⟩

/-- A finite sequence of completed attempts applied to a store; each tuple
carries `(finalTime, percentile, wpm, timestamp)`. -/
def applyAttempts {α : Type} [LinearOrder α] (init : RecordStore α)
    (attempts : List (α × α × α × Nat)) : RecordStore α :=
  attempts.foldl (fun s t => saveRecord s t.1 t.2.1 t.2.2.1 t.2.2.2) init

/-- The raw value persisted under `typingStats_<language>`, as seen by
`localStorage.getItem` followed by `JSON.parse`:
  * `missing` — no entry (`getItem` returns `null`);
  * `malformed raw` — an entry whose text is not valid JSON;
  * `stored pc recs` — a JSON object, each field possibly absent. -/
inductive PersistedValue where
  | missing : PersistedValue
  | malformed (raw : String) : PersistedValue
  | stored (playCount : Option Nat) (records : Option (List (PlayRecord ℚ))) : PersistedValue

/-- `JSON.parse(localStorage.getItem(key))` (`src/app.js` lines 685, 731):
a missing key parses to `null` (`none`); malformed text throws a
`SyntaxError`; a stored object parses to its fields. -/
def parsePersisted : PersistedValue →
    Except String (Option (Option Nat × Option (List (PlayRecord ℚ))))
  | .missing => .ok none
  | .malformed _ => .error "SyntaxError: JSON.parse"
  | .stored pc recs => .ok (some (pc, recs))

/-- The load-and-normalize path of `saveRecord` (`src/app.js` lines
685-700): `JSON.parse(...) || { playCount: 0, records: [] }`, then
`data.playCount || 0` and `if (!data.records) data.records = []`. -/
def loadRecordStore (pv : PersistedValue) : Except String (RecordStore ℚ) :=
  (parsePersisted pv).map (fun parsed =>
    match parsed with
    | none => ⟨0, []⟩
    | some (pc, recs) => ⟨pc.getD 0, recs.getD []⟩)

/-- The persistent key-value store (`localStorage`): keys to raw values. -/
def Storage : Type := String → Option String

/-- `localStorage.removeItem` on the storage model. -/
def removeItem (st : Storage) (key : String) : Storage :=
  fun k => if k = key then none else st k

/-- The confirmed branch of `resetAllRecords` (`src/app.js` lines 714-727):
remove only the entry `typingStats_<language>` of the currently selected
language (the `confirm` dialog is UI and is modelled as accepted). -/
def resetAllRecords (st : Storage) (language : String) : Storage :=
  removeItem st ("typingStats_" ++ language)

/-- A concrete storage holding only a Korean record entry, used as a
witness input. -/
def demoStorage : Storage :=
  fun k => if k = "typingStats_ko" then some "records" else none

/-- The Abramowitz-Stegun 7.1.26 polynomial
`(((((a5*t + a4)*t + a3)*t + a2)*t + a1)*t` of `Erf`
(`src/app.js` lines 835-851). -/
noncomputable def erfPoly (t : ℝ) : ℝ :=
  ((((1.061405429 * t + -1.453152027) * t + 1.421413741) * t + -0.284496736) * t
    + 0.254829592) * t

/-- `Erf` (`src/app.js` lines 832-854): save the sign, take `|x|`,
`t = 1/(1 + p*|x|)`, `y = 1 - poly(t) * exp(-x*x)`, return `sign * y`.
`Math.exp` is modelled by `Real.exp`. -/
noncomputable def Erf (x : ℝ) : ℝ :=
  let p : ℝ := 0.3275911
  let sign : ℝ := if x < 0 then -1 else 1
  let ax := |x|
  let t := 1 / (1 + p * ax)
  sign * (1 - erfPoly t * Real.exp (-(ax * ax)))

/-- `calculateNormalCDF` (`src/app.js` lines 828-830). -/
noncomputable def calculateNormalCDF (x mean stdDev : ℝ) : ℝ :=
  0.5 * (1 + Erf ((x - mean) / (stdDev * Real.sqrt 2)))

/-- `getPercentile` (`src/app.js` lines 856-875): mean 40, standard
deviation 15, `topPercent = (1 - cdf) * 100`, then the two sequential
clamps to `0.01` from below and `99.9` from above.  The JS function
returns `topPercent.toString()`; the numeric value is modelled (the
string round-trips through `parseFloat` at the call site). -/
noncomputable def getPercentile (wpm : ℝ) : ℝ :=
  let mean : ℝ := 40
  let stdDev : ℝ := 15
  let cdf := calculateNormalCDF wpm mean stdDev
  let topPercent := (1 - cdf) * 100
  let clamped := if topPercent < 0.01 then 0.01 else topPercent
  if 99.9 < clamped then 99.9 else clamped

/-- The full completed-attempt path of `saveRecord` (`src/app.js` lines
673-711): compute `wpm = (chars/5) / (time/60)`, compute the percentile,
and update the store.  Real division models the JS float division; the
structural facts proved about this function do not depend on the quotient
at `finalTime = 0`. -/
noncomputable def attemptPipeline (store : RecordStore ℝ)
    (totalCharsTyped finalTime : ℝ) (timestamp : Nat) : RecordStore ℝ :=
  let wpm := (totalCharsTyped / 5) / (finalTime / 60)
  let percentileNum := getPercentile wpm
  saveRecord store finalTime percentileNum wpm timestamp

-- ## Theorems

theorem imul_lt (a b : Nat) : imul a b < 2 ^ 32 :=
  Nat.mod_lt _ (by norm_num)

theorem mulberry_out_lt (h : Nat) : (mulberryStep h).2 < 2 ^ 32 := by
  have ht1 : imul (Nat.xor ((h + 0x6D2B79F5) % 2 ^ 32)
      (((h + 0x6D2B79F5) % 2 ^ 32) / 2 ^ 15))
      (Nat.lor 1 ((h + 0x6D2B79F5) % 2 ^ 32)) < 2 ^ 32 := imul_lt _ _
  unfold mulberryStep
  simp only
  apply Nat.xor_lt_two_pow
  · exact Nat.xor_lt_two_pow (Nat.mod_lt _ (by norm_num)) ht1
  · exact Nat.lt_of_le_of_lt (Nat.div_le_self _ _)
      (Nat.xor_lt_two_pow (Nat.mod_lt _ (by norm_num)) ht1)

theorem cons_set_perm : ∀ (t : List Nat) (m a : Nat), m < t.length →
    (t.getD m 0 :: t.set m a).Perm (a :: t) := by
  intro t
  induction t with
  | nil => intro m a h; simp at h
  | cons b s ih =>
    intro m a h
    cases m with
    | zero => simpa using List.Perm.swap a b s
    | succ k =>
      have hk : k < s.length := by simpa using h
      have h1 : (s.getD k 0 :: b :: s.set k a).Perm (b :: s.getD k 0 :: s.set k a) :=
        List.Perm.swap b (s.getD k 0) (s.set k a)
      have h2 : (b :: s.getD k 0 :: s.set k a).Perm (b :: a :: s) :=
        (ih k a hk).cons b
      have h3 : (b :: a :: s).Perm (a :: b :: s) := List.Perm.swap a b s
      simpa using (h1.trans h2).trans h3

theorem swapAt_perm : ∀ (l : List Nat) (i j : Nat), i < l.length → j < l.length →
    (swapAt l i j).Perm l := by
  intro l
  induction l with
  | nil => intro i j hi _; simp at hi
  | cons a t ih =>
    intro i j hi hj
    cases i with
    | zero =>
      cases j with
      | zero => simp [swapAt]
      | succ k =>
        have hk : k < t.length := by simpa using hj
        simpa [swapAt] using cons_set_perm t k a hk
    | succ m =>
      have hm : m < t.length := by simpa using hi
      cases j with
      | zero => simpa [swapAt] using cons_set_perm t m a hm
      | succ k =>
        have hk : k < t.length := by simpa using hj
        simpa [swapAt] using (ih m k hm hk).cons a

theorem fyFold_perm : ∀ (steps : List Nat) (p : List Nat × Nat),
    (∀ i ∈ steps, i < p.1.length) → ((steps.foldl fyStep p).1).Perm p.1 := by
  intro steps
  induction steps with
  | nil => intro p _; simp
  | cons i is ih =>
    intro p hb
    have hi : i < p.1.length := hb i (List.mem_cons_self i is)
    have hj : (mulberryStep p.2).2 * (i + 1) / 2 ^ 32 < p.1.length := by
      have hlt : (mulberryStep p.2).2 * (i + 1) < 2 ^ 32 * (i + 1) :=
        (Nat.mul_lt_mul_right (Nat.succ_pos i)).mpr (mulberry_out_lt p.2)
      exact Nat.lt_of_lt_of_le (Nat.div_lt_of_lt_mul (by linarith [hlt]))
        (Nat.succ_le_of_lt hi)
    have hstep : (fyStep p i).1.Perm p.1 := swapAt_perm _ _ _ hi hj
    have hlen : (fyStep p i).1.length = p.1.length := hstep.length_eq
    rw [List.foldl_cons]
    exact (ih (fyStep p i) (fun i2 hi2 => hlen ▸ hb i2 (List.mem_cons_of_mem _ hi2))).trans hstep

theorem getShuffledIndices_perm (n : Nat) (seed : String) :
    (getShuffledIndices n seed).Perm (List.range n) := by
  unfold getShuffledIndices getShuffledIndicesS
  apply fyFold_perm
  intro i hi
  rw [List.mem_reverse, List.mem_range'_1] at hi
  simp only [List.length_range]
  omega

/-- C2: `getShuffledIndices(n, seed)` returns a sequence of length `n` that
is a permutation of (hence a bijection on) `{0, …, n-1}` for every seed and
every `n ≥ 0`; and for `n ≤ 1` it returns the trivial already-sorted
sequence with the generator never stepped (the PRNG state is still the raw
seed hash). -/
theorem getShuffledIndices_bijection (n : Nat) (seed : String) :
    (getShuffledIndices n seed).length = n ∧
    (getShuffledIndices n seed).Perm (List.range n) ∧
    (n ≤ 1 → getShuffledIndices n seed = List.range n ∧
      (getShuffledIndicesS n seed).2 = hashSeed seed) := by
  refine ⟨?_, getShuffledIndices_perm n seed, ?_⟩
  · simpa using (getShuffledIndices_perm n seed).length_eq
  · intro hn
    match n, hn with
    | 0, _ => exact ⟨rfl, rfl⟩
    | 1, _ => exact ⟨rfl, rfl⟩

/-- Witness for C2 at the concrete input `n = 1`, `seed = "en_deck_0"`. -/
theorem getShuffledIndices_bijection_witness :
    getShuffledIndices 1 "en_deck_0" = List.range 1 ∧
    (getShuffledIndicesS 1 "en_deck_0").2 = hashSeed "en_deck_0" :=
  (getShuffledIndices_bijection 1 "en_deck_0").2.2 (by decide)

/-- C8: when the quote pool is absent or empty, the daily selection is the
triple of three identical placeholder passages (the guard returns before
any index arithmetic on the pool size, so nothing is thrown). -/
theorem selectDailyQuotes_empty_pool (allQuotes : Option (List String))
    (language : String) (daysPassed : Nat)
    (h : allQuotes = none ∨ allQuotes = some []) :
    selectDailyQuotes allQuotes language daysPassed = List.replicate 3 noQuotes := by
  rcases h with h | h <;> subst h <;> rfl

/-- Witness for C8 at the concrete input of an absent pool. -/
theorem selectDailyQuotes_empty_pool_witness :
    selectDailyQuotes none "en" 0 = List.replicate 3 noQuotes :=
  selectDailyQuotes_empty_pool none "en" 0 (Or.inl rfl)

theorem range_map_getD {α β : Type} (g : α → β) (d : α) :
    ∀ l : List α, (List.range l.length).map (fun o => g (l.getD o d)) = l.map g := by
  intro l
  induction l with
  | nil => rfl
  | cons a t ih =>
    show (List.range (t.length + 1)).map _ = _
    rw [List.range_succ_eq_map, List.map_cons, List.map_map]
    refine congrArg₂ List.cons (by simp) ?_
    have hcomp : ((fun o => g ((a :: t).getD o d)) ∘ Nat.succ) = fun o => g (t.getD o d) := by
      funext o
      simp
    rw [hcomp, ih]

/-- C9: for every pool of size `n ≥ 1`, every language and every deck
boundary `k * n`, the `n` passages at global indices `k * n, …, k * n + n - 1`
form a permutation of the pool: every passage occurs exactly once per deck. -/
theorem deck_coverage (pool : List String) (language : String) (k : Nat)
    (h : 1 ≤ pool.length) :
    ((List.range pool.length).map
      (fun o => getSentenceAtGlobalIndex pool language (k * pool.length + o))).Perm pool := by
  have hpos : 0 < pool.length := h
  have key : ∀ o ∈ List.range pool.length,
      getSentenceAtGlobalIndex pool language (k * pool.length + o) =
        pool.getD ((getShuffledIndices pool.length
          (language ++ "_deck_" ++ toString k)).getD o 0) "" := by
    intro o ho
    rw [List.mem_range] at ho
    unfold getSentenceAtGlobalIndex
    simp only
    rw [Nat.add_comm (k * pool.length) o, Nat.add_mul_div_right _ _ hpos,
      Nat.div_eq_of_lt ho, Nat.zero_add, Nat.add_mul_mod_self_right, Nat.mod_eq_of_lt ho]
  rw [List.map_congr_left key]
  have hperm := getShuffledIndices_perm pool.length (language ++ "_deck_" ++ toString k)
  have hlen : (getShuffledIndices pool.length (language ++ "_deck_" ++ toString k)).length
      = pool.length := by simpa using hperm.length_eq
  have hrange := range_map_getD (fun j => pool.getD j "") 0
    (getShuffledIndices pool.length (language ++ "_deck_" ++ toString k))
  rw [hlen] at hrange
  rw [hrange]
  have hmap : ((getShuffledIndices pool.length (language ++ "_deck_" ++ toString k)).map
      (fun j => pool.getD j "")).Perm ((List.range pool.length).map (fun j => pool.getD j "")) :=
    hperm.map _
  have hid : (List.range pool.length).map (fun j => pool.getD j "") = pool := by
    have := range_map_getD (fun x : String => x) "" pool
    simpa using this
  rw [hid] at hmap
  exact hmap

/-- Witness for C9 at the concrete pool `["alpha", "beta", "gamma"]`,
language `"en"`, deck number `k = 1`. -/
theorem deck_coverage_witness :
    ((List.range (["alpha", "beta", "gamma"] : List String).length).map
      (fun o => getSentenceAtGlobalIndex ["alpha", "beta", "gamma"] "en"
        (1 * (["alpha", "beta", "gamma"] : List String).length + o))).Perm
      ["alpha", "beta", "gamma"] :=
  deck_coverage ["alpha", "beta", "gamma"] "en" 1 (by decide)

theorem saveRecord_sorted {α : Type} [LinearOrder α] (data : RecordStore α)
    (finalTime percentileNum wpmVal : α) (timestamp : Nat) :
    List.Sorted recLE (saveRecord data finalTime percentileNum wpmVal timestamp).records := by
  unfold saveRecord
  simp only
  split
  · exact (List.sorted_insertionSort recLE _).sublist (List.take_sublist 5 _)
  · exact List.sorted_insertionSort recLE _

theorem saveRecord_length {α : Type} [LinearOrder α] (data : RecordStore α)
    (finalTime percentileNum wpmVal : α) (timestamp : Nat) :
    (saveRecord data finalTime percentileNum wpmVal timestamp).records.length ≤ 5 := by
  unfold saveRecord
  simp only
  split
  · simp [List.length_take]
  · omega

theorem applyAttempts_playCount {α : Type} [LinearOrder α] :
    ∀ (attempts : List (α × α × α × Nat)) (s : RecordStore α),
      (applyAttempts s attempts).playCount = s.playCount + attempts.length := by
  intro attempts
  induction attempts with
  | nil => intro s; simp [applyAttempts]
  | cons a as ih =>
    intro s
    show (applyAttempts (saveRecord s a.1 a.2.1 a.2.2.1 a.2.2.2) as).playCount = _
    rw [ih]
    show (saveRecord s a.1 a.2.1 a.2.2.1 a.2.2.2).playCount + as.length = _
    simp [saveRecord]
    omega

theorem applyAttempts_records {α : Type} [LinearOrder α] :
    ∀ (attempts : List (α × α × α × Nat)) (s : RecordStore α),
      List.Sorted recLE s.records → s.records.length ≤ 5 →
      List.Sorted recLE (applyAttempts s attempts).records ∧
        (applyAttempts s attempts).records.length ≤ 5 := by
  intro attempts
  induction attempts with
  | nil => intro s h1 h2; exact ⟨h1, h2⟩
  | cons a as ih =>
    intro s _ _
    exact ih (saveRecord s a.1 a.2.1 a.2.2.1 a.2.2.2)
      (saveRecord_sorted s a.1 a.2.1 a.2.2.1 a.2.2.2)
      (saveRecord_length s a.1 a.2.1 a.2.2.1 a.2.2.2)

/-- C1: every store reachable from the default store
`{ playCount: 0, records: [] }` by a finite sequence of `saveRecord`
updates has its records sorted ascending by percentile, at most 5 records,
and a `playCount` equal to the number of completed attempts. -/
theorem recordStore_invariant (attempts : List (ℚ × ℚ × ℚ × Nat)) :
    List.Sorted recLE (applyAttempts emptyStore attempts).records ∧
    (applyAttempts emptyStore attempts).records.length ≤ 5 ∧
    (applyAttempts emptyStore attempts).playCount = attempts.length := by
  have h := applyAttempts_records attempts emptyStore (by simp [emptyStore]) (by simp [emptyStore])
  have hp := applyAttempts_playCount attempts emptyStore
  exact ⟨h.1, h.2, by simpa [emptyStore] using hp⟩

/-- Counterexample for C5: a malformed persisted value does surface an
error — `JSON.parse` throws before the `|| {playCount: 0, records: []}`
fallback can apply; the load is not recovered to the default store. -/
theorem loadRecordStore_malformed_error :
    ¬ ∃ st : RecordStore ℚ, loadRecordStore (PersistedValue.malformed "oops") = .ok st := by
  rintro ⟨st, h⟩
  simp [loadRecordStore, parsePersisted, Except.map] at h

/-- C5 (amended): a missing persisted value loads as the default store, and
a stored object with absent fields loads with an absent `records` treated
as the empty list and an absent `playCount` treated as 0; only malformed
persisted text errors. -/
theorem loadRecordStore_defaults :
    loadRecordStore PersistedValue.missing = .ok ⟨0, []⟩ ∧
    (∀ (pc : Option Nat) (recs : Option (List (PlayRecord ℚ))),
      loadRecordStore (PersistedValue.stored pc recs) = .ok ⟨pc.getD 0, recs.getD []⟩) ∧
    (∀ recs, loadRecordStore (PersistedValue.stored none recs)
      = .ok ⟨0, recs.getD []⟩) ∧
    (∀ pc, loadRecordStore (PersistedValue.stored pc none) = .ok ⟨pc.getD 0, []⟩) := by
  refine ⟨rfl, fun pc recs => rfl, fun recs => rfl, fun pc => rfl⟩

theorem string_append_cancel {s t u : String} (h : s ++ t = s ++ u) : t = u := by
  have h2 := congrArg String.data h
  simp [String.data_append] at h2
  cases t; cases u
  simp only at h2
  rw [h2]

/-- C10: the reset-records action removes only the persisted entry
`typingStats_<L>` of the selected language `L`; the entry of every other
language `L'` is left unchanged. -/
theorem resetAllRecords_frame (st : Storage) (language other : String)
    (h : other ≠ language) :
    resetAllRecords st language ("typingStats_" ++ other) = st ("typingStats_" ++ other) ∧
    resetAllRecords st language ("typingStats_" ++ language) = none := by
  constructor
  · show (if "typingStats_" ++ other = "typingStats_" ++ language then none
      else st ("typingStats_" ++ other)) = st ("typingStats_" ++ other)
    rw [if_neg]
    intro heq
    exact h (string_append_cancel heq)
  · show (if "typingStats_" ++ language = "typingStats_" ++ language then none
      else st ("typingStats_" ++ language)) = none
    rw [if_pos rfl]

/-- Witness for C10: resetting English leaves the Korean entry unchanged
and clears the English one, on a concrete storage. -/
theorem resetAllRecords_frame_witness :
    resetAllRecords demoStorage "en" ("typingStats_" ++ "ko")
      = demoStorage ("typingStats_" ++ "ko") ∧
    resetAllRecords demoStorage "en" ("typingStats_" ++ "en") = none :=
  resetAllRecords_frame demoStorage "en" "ko" (by decide)

theorem erfPolyQ_nonneg (t : ℝ) (h0 : 0 ≤ t) (h1 : t ≤ 1) :
    0 ≤ (((1.061405429 * t + -1.453152027) * t + 1.421413741) * t + -0.284496736) * t
      + 0.254829592 := by
  nlinarith [sq_nonneg (1.030244 * t ^ 2 - 0.705247 * t + 0.3),
    sq_nonneg (0.553076 * t + 0.125346),
    pow_nonneg h0 2, pow_nonneg h0 3, pow_nonneg h0 4]

theorem erfPoly_nonneg (t : ℝ) (h0 : 0 ≤ t) (h1 : t ≤ 1) : 0 ≤ erfPoly t := by
  unfold erfPoly
  exact mul_nonneg (erfPolyQ_nonneg t h0 h1) h0

theorem erfPoly_hasDeriv (t : ℝ) :
    HasDerivAt erfPoly
      (5.307027145 * t ^ 4 + -5.812608108 * t ^ 3 + 4.264241223 * t ^ 2
        + -0.568993472 * t + 0.254829592) t := by
  have hexp : erfPoly = fun u : ℝ => 1.061405429 * u ^ 5 + -1.453152027 * u ^ 4
      + 1.421413741 * u ^ 3 + -0.284496736 * u ^ 2 + 0.254829592 * u := by
    funext u
    unfold erfPoly
    ring
  rw [hexp]
  have h5 : HasDerivAt (fun u : ℝ => u ^ 5) ((5 : ℕ) * t ^ 4) t := hasDerivAt_pow 5 t
  have h4 : HasDerivAt (fun u : ℝ => u ^ 4) ((4 : ℕ) * t ^ 3) t := hasDerivAt_pow 4 t
  have h3 : HasDerivAt (fun u : ℝ => u ^ 3) ((3 : ℕ) * t ^ 2) t := hasDerivAt_pow 3 t
  have h2 : HasDerivAt (fun u : ℝ => u ^ 2) ((2 : ℕ) * t ^ 1) t := hasDerivAt_pow 2 t
  have h1 : HasDerivAt (fun u : ℝ => u) 1 t := hasDerivAt_id t
  have hsum := ((((h5.const_mul (1.061405429 : ℝ)).add
    (h4.const_mul (-1.453152027 : ℝ))).add
    (h3.const_mul (1.421413741 : ℝ))).add
    (h2.const_mul (-0.284496736 : ℝ))).add
    (h1.const_mul (0.254829592 : ℝ))
  convert hsum using 1
  push_cast
  ring

theorem erfPoly_mono : MonotoneOn erfPoly (Set.Icc (0 : ℝ) 1) := by
  apply monotoneOn_of_deriv_nonneg (convex_Icc 0 1)
  · exact (Differentiable.continuous
      (fun u => (erfPoly_hasDeriv u).differentiableAt)).continuousOn
  · intro u _
    exact ((erfPoly_hasDeriv u).differentiableAt).differentiableWithinAt
  · intro u hu
    rw [interior_Icc] at hu
    rw [(erfPoly_hasDeriv u).deriv]
    have h0 : (0 : ℝ) ≤ u := le_of_lt hu.1
    have h1 : u ≤ 1 := le_of_lt hu.2
    nlinarith [sq_nonneg (2.303698 * u ^ 2 + -1.261582 * u + 0.3),
      sq_nonneg (1.135971 * u + 0.082729),
      pow_nonneg h0 2, pow_nonneg h0 3, pow_nonneg h0 4,
      (pow_le_one₀ h0 h1 : u ^ 3 ≤ 1)]

theorem Erf_of_nonneg (x : ℝ) (hx : 0 ≤ x) :
    Erf x = 1 - erfPoly (1 / (1 + 0.3275911 * x)) * Real.exp (-(x * x)) := by
  simp only [Erf]
  rw [if_neg (not_lt.mpr hx), abs_of_nonneg hx, one_mul]

theorem Erf_of_neg (x : ℝ) (hx : x < 0) :
    Erf x = -(1 - erfPoly (1 / (1 + 0.3275911 * -x)) * Real.exp (-(-x * -x))) := by
  simp only [Erf]
  rw [if_pos hx, abs_of_neg hx, neg_one_mul]

theorem erfT_mem (x : ℝ) (hx : 0 ≤ x) :
    0 ≤ 1 / (1 + 0.3275911 * x) ∧ 1 / (1 + 0.3275911 * x) ≤ 1 := by
  have hpos : (0 : ℝ) < 1 + 0.3275911 * x := by nlinarith
  constructor
  · positivity
  · rw [div_le_one hpos]
    nlinarith

theorem erfProd_anti (x1 x2 : ℝ) (h1 : 0 ≤ x1) (h12 : x1 ≤ x2) :
    erfPoly (1 / (1 + 0.3275911 * x2)) * Real.exp (-(x2 * x2)) ≤
      erfPoly (1 / (1 + 0.3275911 * x1)) * Real.exp (-(x1 * x1)) := by
  have h2 : (0 : ℝ) ≤ x2 := le_trans h1 h12
  have ht1 := erfT_mem x1 h1
  have ht2 := erfT_mem x2 h2
  have hT : 1 / (1 + 0.3275911 * x2) ≤ 1 / (1 + 0.3275911 * x1) :=
    one_div_le_one_div_of_le (by nlinarith) (by nlinarith)
  have hP : erfPoly (1 / (1 + 0.3275911 * x2)) ≤ erfPoly (1 / (1 + 0.3275911 * x1)) :=
    erfPoly_mono ⟨ht2.1, ht2.2⟩ ⟨ht1.1, ht1.2⟩ hT
  have hE : Real.exp (-(x2 * x2)) ≤ Real.exp (-(x1 * x1)) :=
    Real.exp_le_exp.mpr (neg_le_neg (mul_self_le_mul_self h1 h12))
  exact mul_le_mul hP hE (Real.exp_nonneg _) (erfPoly_nonneg _ ht1.1 ht1.2)

theorem erfProd_nonneg (x : ℝ) (hx : 0 ≤ x) :
    0 ≤ erfPoly (1 / (1 + 0.3275911 * x)) * Real.exp (-(x * x)) :=
  mul_nonneg (erfPoly_nonneg _ (erfT_mem x hx).1 (erfT_mem x hx).2) (Real.exp_nonneg _)

theorem erfProd_le_one (x : ℝ) (hx : 0 ≤ x) :
    erfPoly (1 / (1 + 0.3275911 * x)) * Real.exp (-(x * x)) ≤ 1 := by
  have h := erfProd_anti 0 x le_rfl hx
  have h0 : erfPoly (1 / (1 + 0.3275911 * 0)) * Real.exp (-((0 : ℝ) * 0)) = erfPoly 1 := by
    norm_num
  have h1 : erfPoly 1 ≤ 1 := by
    unfold erfPoly
    norm_num
  rw [h0] at h
  linarith

theorem Erf_monotone : Monotone Erf := by
  intro x1 x2 h
  rcases lt_or_le x1 0 with hx1 | hx1
  · rcases lt_or_le x2 0 with hx2 | hx2
    · rw [Erf_of_neg _ hx1, Erf_of_neg _ hx2]
      have hb : (0 : ℝ) ≤ -x2 := by linarith
      have hba : -x2 ≤ -x1 := by linarith
      have := erfProd_anti (-x2) (-x1) hb hba
      linarith
    · rw [Erf_of_neg _ hx1, Erf_of_nonneg _ hx2]
      have hc1 := erfProd_le_one (-x1) (by linarith)
      have hc2 := erfProd_le_one x2 hx2
      linarith
  · rw [Erf_of_nonneg _ hx1, Erf_of_nonneg _ (le_trans hx1 h)]
    have := erfProd_anti x1 x2 hx1 h
    linarith

/-- C3: the percentile computation is non-increasing in wpm, and, for a
fixed positive elapsed time, increasing the typed character count never
increases the returned percentile. -/
theorem getPercentile_antitone :
    (∀ w1 w2 : ℝ, w1 ≤ w2 → getPercentile w2 ≤ getPercentile w1) ∧
    (∀ t c1 c2 : ℝ, 0 < t → c1 ≤ c2 →
      getPercentile (c2 / 5 / (t / 60)) ≤ getPercentile (c1 / 5 / (t / 60))) := by
  have main : ∀ w1 w2 : ℝ, w1 ≤ w2 → getPercentile w2 ≤ getPercentile w1 := by
    intro w1 w2 h
    have hz : (w1 - 40) / (15 * Real.sqrt 2) ≤ (w2 - 40) / (15 * Real.sqrt 2) :=
      (div_le_div_iff_of_pos_right (by positivity)).mpr (by linarith)
    have hE : Erf ((w1 - 40) / (15 * Real.sqrt 2)) ≤ Erf ((w2 - 40) / (15 * Real.sqrt 2)) :=
      Erf_monotone hz
    simp only [getPercentile, calculateNormalCDF]
    split_ifs <;> linarith
  refine ⟨main, fun t c1 c2 ht hc => main _ _ ?_⟩
  have h60 : (0 : ℝ) < t / 60 := div_pos ht (by norm_num)
  exact (div_le_div_iff_of_pos_right h60).mpr
    ((div_le_div_iff_of_pos_right (by norm_num)).mpr hc)

/-- Witness for C3: a faster attempt (wpm 50) ranks no worse (numerically
no larger) than a slower one (wpm 30). -/
theorem getPercentile_antitone_witness : getPercentile 50 ≤ getPercentile 30 :=
  getPercentile_antitone.1 30 50 (by norm_num)

theorem Erf_zero_val : Erf 0 = 1e-9 := by
  rw [Erf_of_nonneg 0 le_rfl]
  simp only [erfPoly]
  norm_num [Real.exp_zero]

theorem cdf40_val : calculateNormalCDF 40 40 15 = 0.5 + 5e-10 := by
  unfold calculateNormalCDF
  rw [show ((40 : ℝ) - 40) / (15 * Real.sqrt 2) = 0 by rw [sub_self, zero_div], Erf_zero_val]
  norm_num

theorem pct40_val : getPercentile 40 = 49.99999995 := by
  simp only [getPercentile]
  rw [cdf40_val]
  have h1 : ¬ ((1 - ((0.5 : ℝ) + 5e-10)) * 100 < 0.01) := by norm_num
  have h2 : ¬ ((99.9 : ℝ) < (1 - ((0.5 : ℝ) + 5e-10)) * 100) := by norm_num
  rw [if_neg h1, if_neg h2]
  norm_num

/-- Counterexample for C6: in the implementation the Abramowitz-Stegun
coefficients sum to `0.999999999`, not `1`, so `Erf(0) ≠ 0`, the normal
CDF at the mean is not `0.5`, and the percentile at wpm exactly 40 is not
`50.0`. -/
theorem erf_model_zero_counterexample :
    Erf 0 ≠ 0 ∧ calculateNormalCDF 40 40 15 ≠ 0.5 ∧ getPercentile 40 ≠ 50 := by
  refine ⟨?_, ?_, ?_⟩
  · rw [Erf_zero_val]; norm_num
  · rw [cdf40_val]; norm_num
  · rw [pct40_val]; norm_num

/-- C6 (amended): the implemented `Erf` satisfies `Erf(0) = 10⁻⁹` (the
A&S coefficients sum to `0.999999999`), hence
`calculateNormalCDF(40, 40, 15) = 0.5 + 5·10⁻¹⁰` and the percentile at
wpm exactly 40 is `49.99999995` — approximately, but not exactly, 50. -/
theorem erf_model_zero_exact :
    Erf 0 = 1e-9 ∧ calculateNormalCDF 40 40 15 = 0.5 + 5e-10 ∧
    getPercentile 40 = 49.99999995 :=
  ⟨Erf_zero_val, cdf40_val, pct40_val⟩

/-- C7: for every (finite) positive wpm the returned percentile lies in
the closed interval `[0.01, 99.9]`: the two sequential clamps bound the
result from below by `0.01` and from above by `99.9`. -/
theorem getPercentile_bounds (wpm : ℝ) (h : 0 < wpm) :
    getPercentile wpm ∈ Set.Icc (0.01 : ℝ) 99.9 := by
  simp only [getPercentile, calculateNormalCDF, Set.mem_Icc]
  split_ifs <;> constructor <;> linarith

/-- Witness for C7 at the concrete input wpm = 50. -/
theorem getPercentile_bounds_witness :
    (0 : ℝ) < 50 ∧ getPercentile 50 ∈ Set.Icc (0.01 : ℝ) 99.9 :=
  ⟨by norm_num, getPercentile_bounds 50 (by norm_num)⟩

/-- C4 evaluated at the failing input: an attempt reported with
`elapsedSeconds = 0` (and 250 characters typed) is processed without any
error: the percentile computation returns a clamped number, `playCount`
is incremented and a record is persisted — there is no `DomainError`
guard anywhere in `saveRecord`/`getPercentile`. -/
theorem attempt_zero_time_persists :
    (attemptPipeline emptyStore 250 0 0).playCount = 1 ∧
    (attemptPipeline emptyStore 250 0 0).records.length = 1 := by
  constructor
  · rfl
  · simp [attemptPipeline, saveRecord, emptyStore, List.insertionSort, List.orderedInsert]
